import Mathlib

/-!
Verification of the INF161 modelling notebook (`model.ipynb`).

The notebook is a linear pandas/sklearn pipeline.  We give a shallow
embedding of its substantive transformations and prove the specified
properties about them.

Part 1: the missing-value imputer `handleNullValues`.

The source is

  dataset = dataset.set_index('Dato + Tid')
  dataset.index = pd.to_datetime(dataset.index, ...)
  dataset = dataset.groupby(dataset.index.hour).fillna(method='ffill')
  dataset[['Hour','isWeekday','Month']] = ....astype('object')

`set_index` moves the timestamp into the index (we model a row as carrying
its timestamp as a `day`/`hour` pair), `astype('object')` does not change
any value, and `groupby(index.hour).fillna(method='ffill')` forward-fills
each column independently within each hour-of-day group, keeping the rows
at their original positions.  `fillna(method='ffill')` is the scan
`out[i] = x[i] if x[i] is not NaN else out[i-1]` within the group, which
carries, at each position, the most recent non-missing original value of
the group.  We model the row cells as a list of `Option ℚ` (one entry per
column, `none` = NaN) and fill all columns in one pass, carrying per
hour-of-day the previously filled row of that group.
-/

set_option autoImplicit false

/-- A row of a timestamp-indexed table: the timestamp (as a day number and
an hour-of-day, which is what `index.hour` groups by) and the cells of the
data columns, `none` standing for a missing value (NaN). -/
structure HRow where
  day : Nat
  hour : Nat
  cells : List (Option ℚ)
  deriving Repr, DecidableEq

/-- First-argument-biased choice: the fill combinator of `ffill` (keep the
current cell if present, otherwise use the carried value). -/
def oget (a b : Option ℚ) : Option ℚ :=
  match a with
  | some v => some v
  | none => b

/-- Fill one row's cells from the carried state of its hour-of-day group
(`none` state: the group has no earlier row, the row is left unchanged). -/
def fillRow (cur : List (Option ℚ)) (st : Option (List (Option ℚ))) : List (Option ℚ) :=
  match st with
  | none => cur
  | some l => List.zipWith oget cur l

/-- The groupby-ffill recursion: `st` maps each hour-of-day to the
previously filled row of that group, if any. -/
def hnvGo (st : Nat → Option (List (Option ℚ))) : List HRow → List HRow
  | [] => []
  | r :: rest =>
    let filled := fillRow r.cells (st r.hour)
    ⟨r.day, r.hour, filled⟩ ::
      hnvGo (fun h => if h = r.hour then some filled else st h) rest

/-- `handleNullValues` (model.ipynb): group rows by hour-of-day and
forward-fill missing cells within each group, in row order. -/
def handleNullValues (t : List HRow) : List HRow :=
  hnvGo (fun _ => none) t

/-- Cell of row `r` in column `j` (`none` if missing or out of range). -/
def cellAt (r : HRow) (j : Nat) : Option ℚ :=
  r.cells.getD j none

/-- The last non-missing value in column `j` among the rows of `t` whose
hour-of-day is `h`: the reference value a forward fill produces. -/
def lastValid (t : List HRow) (h : Nat) (j : Nat) : Option ℚ :=
  t.foldl (fun acc r => if r.hour = h then oget (cellAt r j) acc else acc) none

theorem oget_none_right (a : Option ℚ) : oget a none = a := by
  cases a <;> rfl

theorem oget_none_left (b : Option ℚ) : oget none b = b := rfl

theorem oget_some (v : ℚ) (b : Option ℚ) : oget (some v) b = some v := rfl

theorem oget_assoc (a b c : Option ℚ) : oget (oget a b) c = oget a (oget b c) := by
  cases a <;> cases b <;> rfl

theorem lastValid_seed (t : List HRow) (h : Nat) (j : Nat) (s : Option ℚ) :
    t.foldl (fun acc r => if r.hour = h then oget (cellAt r j) acc else acc) s =
      oget (lastValid t h j) s := by
  induction t generalizing s with
  | nil => simp [lastValid, oget_none_left]
  | cons a t ih =>
    have hstep : ∀ s' : Option ℚ,
        (if a.hour = h then oget (cellAt a j) s' else s') =
          oget (if a.hour = h then oget (cellAt a j) none else none) s' := by
      intro s'
      by_cases hah : a.hour = h
      · rw [if_pos hah, if_pos hah, oget_none_right]
      · rw [if_neg hah, if_neg hah, oget_none_left]
    show List.foldl _ (if a.hour = h then oget (cellAt a j) s else s) t =
      oget (lastValid (a :: t) h j) s
    have hcons : lastValid (a :: t) h j =
        List.foldl (fun acc r => if r.hour = h then oget (cellAt r j) acc else acc)
          (if a.hour = h then oget (cellAt a j) none else none) t := rfl
    rw [hcons, ih, ih, oget_assoc, ← hstep s]

theorem lastValid_cons (a : HRow) (t : List HRow) (h : Nat) (j : Nat) :
    lastValid (a :: t) h j =
      oget (lastValid t h j) (if a.hour = h then cellAt a j else none) := by
  have hcons : lastValid (a :: t) h j =
      List.foldl (fun acc r => if r.hour = h then oget (cellAt r j) acc else acc)
        (if a.hour = h then oget (cellAt a j) none else none) t := rfl
  rw [hcons, lastValid_seed]
  by_cases hah : a.hour = h
  · rw [if_pos hah, if_pos hah, oget_none_right]
  · rw [if_neg hah, if_neg hah]

theorem lastValid_append (xs ys : List HRow) (h : Nat) (j : Nat) :
    lastValid (xs ++ ys) h j = oget (lastValid ys h j) (lastValid xs h j) := by
  have : lastValid (xs ++ ys) h j =
      List.foldl (fun acc r => if r.hour = h then oget (cellAt r j) acc else acc)
        (lastValid xs h j) ys := by
    simp only [lastValid, List.foldl_append]
  rw [this, lastValid_seed]

theorem lastValid_of_no_hour (t : List HRow) (h : Nat) (j : Nat)
    (hn : ∀ a ∈ t, a.hour ≠ h) : lastValid t h j = none := by
  induction t with
  | nil => rfl
  | cons a t ih =>
    rw [lastValid_cons, ih (fun b hb => hn b (List.mem_cons_of_mem a hb)),
      if_neg (hn a (List.mem_cons_self a t))]
    rfl

/-- Reading a column of the carried group state. -/
def stateVal (s : Option (List (Option ℚ))) (j : Nat) : Option ℚ :=
  match s with
  | none => none
  | some l => l.getD j none

theorem cellAt_fillRow (r : HRow) (st : Option (List (Option ℚ))) (w j : Nat)
    (hr : r.cells.length = w) (hst : ∀ l, st = some l → l.length = w) (hj : j < w) :
    (fillRow r.cells st).getD j none = oget (cellAt r j) (stateVal st j) := by
  cases st with
  | none => simp [fillRow, stateVal, oget_none_right, cellAt]
  | some l =>
    have hl : l.length = w := hst l rfl
    have hjr : j < r.cells.length := by rw [hr]; exact hj
    have hjl : j < l.length := by rw [hl]; exact hj
    have hjz : j < (List.zipWith oget r.cells l).length := by
      rw [List.length_zipWith, hr, hl]; exact Nat.lt_min.mpr ⟨hj, hj⟩
    simp only [fillRow, stateVal, cellAt]
    rw [List.getD_eq_getElem _ _ hjz, List.getD_eq_getElem _ _ hjr,
      List.getD_eq_getElem _ _ hjl, List.getElem_zipWith]

theorem fillRow_length (r : HRow) (st : Option (List (Option ℚ))) (w : Nat)
    (hr : r.cells.length = w) (hst : ∀ l, st = some l → l.length = w) :
    (fillRow r.cells st).length = w := by
  cases st with
  | none => simpa [fillRow] using hr
  | some l =>
    have hl : l.length = w := hst l rfl
    simp [fillRow, List.length_zipWith, hr, hl]

theorem hnvGo_length (st : Nat → Option (List (Option ℚ))) (t : List HRow) :
    (hnvGo st t).length = t.length := by
  induction t generalizing st with
  | nil => rfl
  | cons a t ih => simp [hnvGo, ih]

theorem handleNullValues_length (t : List HRow) :
    (handleNullValues t).length = t.length :=
  hnvGo_length _ t

/-- Characterization of the groupby-ffill recursion: the output cell at
position `i`, column `j`, is the last non-missing value of that column
among the same-hour rows up to and including position `i`, falling back to
the incoming group state. -/
theorem hnvGo_cellAt (t : List HRow) (w : Nat) (hw : ∀ r ∈ t, r.cells.length = w)
    (st : Nat → Option (List (Option ℚ)))
    (hst : ∀ h l, st h = some l → l.length = w)
    (i : Nat) (r : HRow) (hi : t[i]? = some r) (j : Nat) (hj : j < w) :
    ∃ r2, (hnvGo st t)[i]? = some r2 ∧ r2.day = r.day ∧ r2.hour = r.hour ∧
      r2.cells.length = w ∧
      cellAt r2 j = oget (lastValid (t.take (i + 1)) r.hour j) (stateVal (st r.hour) j) := by
  induction t generalizing st i with
  | nil => simp at hi
  | cons a t ih =>
    have haw : a.cells.length = w := hw a (List.mem_cons_self a t)
    have hfw : (fillRow a.cells (st a.hour)).length = w :=
      fillRow_length a (st a.hour) w haw (fun l hl => hst a.hour l hl)
    cases i with
    | zero =>
      have hra : a = r := by simpa using hi
      subst hra
      refine ⟨⟨a.day, a.hour, fillRow a.cells (st a.hour)⟩, ?_, rfl, rfl, hfw, ?_⟩
      · simp [hnvGo]
      · have hfc := cellAt_fillRow a (st a.hour) w j haw (fun l hl => hst a.hour l hl) hj
        have hcell : cellAt ⟨a.day, a.hour, fillRow a.cells (st a.hour)⟩ j =
            (fillRow a.cells (st a.hour)).getD j none := rfl
        rw [hcell, hfc]
        have htake : (a :: t).take (0 + 1) = [a] := rfl
        rw [htake, lastValid_cons]
        have hnil : lastValid ([] : List HRow) a.hour j = none := rfl
        rw [hnil, if_pos rfl, oget_none_left]
    | succ i =>
      simp only [List.getElem?_cons_succ] at hi
      have hw' : ∀ b ∈ t, b.cells.length = w := fun b hb => hw b (List.mem_cons_of_mem a hb)
      have hst' : ∀ h l,
          (fun h => if h = a.hour then some (fillRow a.cells (st a.hour)) else st h) h = some l →
            l.length = w := by
        intro h l hl
        by_cases hha : h = a.hour
        · simp only [if_pos hha, Option.some.injEq] at hl
          rw [← hl]; exact hfw
        · simp only [if_neg hha] at hl
          exact hst h l hl
      obtain ⟨r2, hr2, hday, hhour, hlen, hcell⟩ := ih hw' _ hst' i hi
      refine ⟨r2, ?_, hday, hhour, hlen, ?_⟩
      · simpa [hnvGo] using hr2
      · rw [hcell]
        have htake : (a :: t).take (i + 1 + 1) = a :: t.take (i + 1) := rfl
        rw [htake, lastValid_cons, oget_assoc]
        congr 1
        by_cases hha : r.hour = a.hour
        · rw [if_pos hha, if_pos hha.symm]
          have hfc := cellAt_fillRow a (st a.hour) w j haw (fun l hl => hst a.hour l hl) hj
        -- the carried state for the hour of `r` is the row just filled
          have hsv : stateVal (some (fillRow a.cells (st a.hour))) j =
              (fillRow a.cells (st a.hour)).getD j none := rfl
          rw [hsv, hfc, hha]
        · have hne : ¬ (a.hour = r.hour) := fun hc => hha hc.symm
          rw [if_neg hha, if_neg hne, oget_none_left]

/-- Characterization of `handleNullValues`: each output row keeps its
timestamp, and its cell in column `j` is the last non-missing value of
that column among the same-hour rows up to and including it. -/
theorem handleNullValues_cellAt (t : List HRow) (w : Nat)
    (hw : ∀ r ∈ t, r.cells.length = w)
    (i : Nat) (r : HRow) (hi : t[i]? = some r) (j : Nat) (hj : j < w) :
    ∃ r2, (handleNullValues t)[i]? = some r2 ∧ r2.day = r.day ∧ r2.hour = r.hour ∧
      r2.cells.length = w ∧
      cellAt r2 j = lastValid (t.take (i + 1)) r.hour j := by
  obtain ⟨r2, h1, h2, h3, h4, h5⟩ :=
    hnvGo_cellAt t w hw (fun _ => none) (fun _ _ h => by simp at h) i r hi j hj
  exact ⟨r2, h1, h2, h3, h4, by rw [h5]; simp [stateVal, oget_none_right]⟩

theorem lastValid_take_succ (t : List HRow) (i : Nat) (r : HRow) (h j : Nat)
    (hi : t[i]? = some r) :
    lastValid (t.take (i + 1)) h j =
      oget (if r.hour = h then cellAt r j else none) (lastValid (t.take i) h j) := by
  rw [List.take_succ, hi]
  have hsing : (some r).toList = [r] := rfl
  rw [hsing, lastValid_append, lastValid_cons]
  have hnil : lastValid ([] : List HRow) h j = none := rfl
  rw [hnil, oget_none_left]

theorem hnvGo_shape (st : Nat → Option (List (Option ℚ))) (t : List HRow)
    (i : Nat) (r : HRow) (hi : t[i]? = some r) :
    ∃ r2, (hnvGo st t)[i]? = some r2 ∧ r2.day = r.day ∧ r2.hour = r.hour := by
  induction t generalizing st i with
  | nil => simp at hi
  | cons a t ih =>
    cases i with
    | zero =>
      have hra : a = r := by simpa using hi
      subst hra
      exact ⟨⟨a.day, a.hour, fillRow a.cells (st a.hour)⟩, by simp [hnvGo], rfl, rfl⟩
    | succ i =>
      simp only [List.getElem?_cons_succ] at hi
      obtain ⟨r2, h1, h2, h3⟩ := ih _ i hi
      exact ⟨r2, by simpa [hnvGo] using h1, h2, h3⟩

/-- C4: for every input table, if the first occurrence (earliest row) of an
hour-of-day group is itself missing, the imputer leaves it missing: the
first row of each hour-of-day group is returned entirely unchanged (so in
particular its missing cells stay missing), no matter what values earlier
rows of other hour-of-day groups hold — no backward fill and no fill from
a different hour-of-day group ever occurs. -/
theorem c4_first_of_group_stays_missing (t1 : List HRow) (r : HRow) (t2 : List HRow)
    (hfirst : ∀ a ∈ t1, a.hour ≠ r.hour) :
    (handleNullValues (t1 ++ r :: t2))[t1.length]? = some r := by
  have main : ∀ (t1 : List HRow) (st : Nat → Option (List (Option ℚ))),
      st r.hour = none → (∀ a ∈ t1, a.hour ≠ r.hour) →
      (hnvGo st (t1 ++ r :: t2))[t1.length]? = some r := by
    intro t1
    induction t1 with
    | nil =>
      intro st hst0 _
      simp only [List.nil_append, List.length_nil]
      show (hnvGo st (r :: t2))[0]? = some r
      simp [hnvGo, hst0, fillRow]
    | cons a t1 ih =>
      intro st hst0 hfirst
      have hne : a.hour ≠ r.hour := hfirst a (List.mem_cons_self a t1)
      have hst0' : (fun h => if h = a.hour then some (fillRow a.cells (st a.hour)) else st h)
          r.hour = none := by
        have : ¬ (r.hour = a.hour) := fun hc => hne hc.symm
        simp only [if_neg this]
        exact hst0
      have := ih (fun h => if h = a.hour then some (fillRow a.cells (st a.hour)) else st h)
        hst0' (fun b hb => hfirst b (List.mem_cons_of_mem a hb))
      simpa [hnvGo] using this
  exact main t1 (fun _ => none) rfl hfirst

/-- Witness for C4 at a concrete table: the hour-7 group's first row (a
missing cell at day 0) is left unchanged even though an hour-5 row with a
value precedes it. -/
theorem c4_witness :
    (∀ a ∈ ([⟨0, 5, [some 1]⟩] : List HRow), a.hour ≠ (⟨0, 7, [none]⟩ : HRow).hour) ∧
    (handleNullValues ([⟨0, 5, [some 1]⟩] ++ (⟨0, 7, [none]⟩ : HRow) :: [⟨1, 7, [some 3]⟩]))[
      ([⟨0, 5, [some 1]⟩] : List HRow).length]? = some (⟨0, 7, [none]⟩ : HRow) :=
  ⟨by decide, c4_first_of_group_stays_missing [⟨0, 5, [some 1]⟩] ⟨0, 7, [none]⟩
    [⟨1, 7, [some 3]⟩] (by decide)⟩

theorem hnvGo_width (t : List HRow) (w : Nat) (hw : ∀ r ∈ t, r.cells.length = w) :
    ∀ st : Nat → Option (List (Option ℚ)), (∀ h l, st h = some l → l.length = w) →
      ∀ (i : Nat) (r2 : HRow), (hnvGo st t)[i]? = some r2 → r2.cells.length = w := by
  induction t with
  | nil =>
    intro st _ i r2 h2
    simp [hnvGo] at h2
  | cons a t ih =>
    intro st hst i r2 h2
    have haw : a.cells.length = w := hw a (List.mem_cons_self a t)
    have hfw : (fillRow a.cells (st a.hour)).length = w :=
      fillRow_length a (st a.hour) w haw (fun l hl => hst a.hour l hl)
    cases i with
    | zero =>
      have : (⟨a.day, a.hour, fillRow a.cells (st a.hour)⟩ : HRow) = r2 := by
        simpa [hnvGo] using h2
      rw [← this]
      exact hfw
    | succ i =>
      have h2' : (hnvGo (fun h => if h = a.hour then some (fillRow a.cells (st a.hour)) else st h)
          t)[i]? = some r2 := by
        simpa [hnvGo] using h2
      refine ih (fun b hb => hw b (List.mem_cons_of_mem a hb))
        (fun h => if h = a.hour then some (fillRow a.cells (st a.hour)) else st h) ?_ i r2 h2'
      intro h l hl
      by_cases hha : h = a.hour
      · simp only [if_pos hha, Option.some.injEq] at hl
        rw [← hl]; exact hfw
      · simp only [if_neg hha] at hl
        exact hst h l hl

/-- C9: `handleNullValues` never changes a non-missing cell, and returns
exactly the same rows (same count, same day/hour timestamps, same column
count) as its input; only cells that were missing can differ. -/
theorem c9_nonmissing_cells_preserved (t : List HRow) (w : Nat)
    (hw : ∀ r ∈ t, r.cells.length = w) :
    (handleNullValues t).length = t.length ∧
    ∀ (i : Nat) (r r2 : HRow), t[i]? = some r → (handleNullValues t)[i]? = some r2 →
      r2.day = r.day ∧ r2.hour = r.hour ∧ r2.cells.length = w ∧
      ∀ (j : Nat) (v : ℚ), j < w → cellAt r j = some v → cellAt r2 j = some v := by
  refine ⟨handleNullValues_length t, ?_⟩
  intro i r r2 hi hi2
  obtain ⟨r2', hs1, hs2, hs3⟩ := hnvGo_shape (fun _ => none) t i r hi
  have he : r2' = r2 := by
    simp only [handleNullValues] at hi2
    rw [hs1] at hi2
    exact Option.some.inj hi2
  subst he
  refine ⟨hs2, hs3,
    hnvGo_width t w hw (fun _ => none) (fun h l hl => by simp at hl) i r2' ?_, ?_⟩
  · simpa only [handleNullValues] using hi2
  · intro j v hj hcv
    obtain ⟨r3, hc1, _, _, _, hc5⟩ := handleNullValues_cellAt t w hw i r hi j hj
    have he3 : r3 = r2' := by
      rw [hi2] at hc1
      exact (Option.some.inj hc1).symm
    subst he3
    rw [hc5, lastValid_take_succ t i r r.hour j hi, if_pos rfl, hcv, oget_some]

/-- Witness for C9 at a concrete two-row table: the non-missing cell
`some 2` of the second row survives the fill. -/
theorem c9_witness :
    (∀ r ∈ ([⟨0, 3, [some 1, none]⟩, ⟨1, 3, [none, some 2]⟩] : List HRow),
      r.cells.length = 2) ∧
    cellAt (⟨1, 3, [some 1, some 2]⟩ : HRow) 1 = some 2 :=
  ⟨by decide,
    ((c9_nonmissing_cells_preserved [⟨0, 3, [some 1, none]⟩, ⟨1, 3, [none, some 2]⟩] 2
      (by decide)).2 1 ⟨1, 3, [none, some 2]⟩ ⟨1, 3, [some 1, some 2]⟩
      (by decide) (by decide)).2.2.2 1 2 (by decide) (by decide)⟩

/-- C1: on a table sorted by timestamp, `handleNullValues` groups rows by
hour-of-day and fills each missing value with the nearest preceding
non-missing value of the same hour-of-day group (`lastValid` over the
rows up to and including it — under the sortedness hypothesis these are
exactly the same-hour rows of earlier dates); in particular a gap at
hour `H` of day `D`, with a present value at hour `H` of day `D - 1`, is
filled with that previous-day value (on a sorted table no row of the same
hour can lie between the two days). -/
theorem c1_gap_filled_from_previous_day (t : List HRow) (w : Nat)
    (hw : ∀ r ∈ t, r.cells.length = w)
    (hsort : t.Pairwise (fun a b => 24 * a.day + a.hour < 24 * b.day + b.hour))
    (i1 i2 j : Nat) (prev gap : HRow) (v : ℚ) (hj : j < w)
    (h1 : t[i1]? = some prev) (h2 : t[i2]? = some gap)
    (hd : prev.day + 1 = gap.day) (hh : prev.hour = gap.hour)
    (hv : cellAt prev j = some v) (hg : cellAt gap j = none) :
    (∀ (i j2 : Nat) (r : HRow), t[i]? = some r → j2 < w →
      Option.map (fun r2 => cellAt r2 j2) ((handleNullValues t)[i]?) =
        some (lastValid (t.take (i + 1)) r.hour j2)) ∧
    Option.map (fun r2 => cellAt r2 j) ((handleNullValues t)[i2]?) = some (some v) ∧
    Option.map HRow.day ((handleNullValues t)[i2]?) = some gap.day ∧
    Option.map HRow.hour ((handleNullValues t)[i2]?) = some gap.hour := by
  refine ⟨?_, ?_⟩
  · intro i j2 r hi hj2
    obtain ⟨r2, hr2, -, hhour2, -, hc⟩ := handleNullValues_cellAt t w hw i r hi j2 hj2
    rw [hr2, show Option.map (fun r2 => cellAt r2 j2) (some r2) = some (cellAt r2 j2) from rfl,
      hc]
  have hts : 24 * prev.day + prev.hour < 24 * gap.day + gap.hour := by omega
  have hPg : ∀ (a b : HRow) (ia ib : Nat), ia < ib → t[ia]? = some a → t[ib]? = some b →
      24 * a.day + a.hour < 24 * b.day + b.hour := by
    intro a b ia ib hlt ha hb
    obtain ⟨hia, ha'⟩ := List.getElem?_eq_some_iff.mp ha
    obtain ⟨hib, hb'⟩ := List.getElem?_eq_some_iff.mp hb
    have := List.pairwise_iff_getElem.mp hsort ia ib hia hib hlt
    rw [ha', hb'] at this
    exact this
  have hne : i1 ≠ i2 := by
    intro he
    rw [he, h2] at h1
    have : gap = prev := Option.some.inj h1
    rw [← this, hg] at hv
    exact Option.noConfusion hv
  have hlt : i1 < i2 := by
    rcases Nat.lt_or_ge i1 i2 with h | h
    · exact h
    · have h' : i2 < i1 := Nat.lt_of_le_of_ne h (Ne.symm hne)
      have := hPg gap prev i2 i1 h' h2 h1
      omega
  obtain ⟨r2, hr2, hday, hhour, _, hcell⟩ := handleNullValues_cellAt t w hw i2 gap h2 j hj
  rw [hr2]
  refine ⟨?_,
    by rw [show Option.map HRow.day (some r2) = some r2.day from rfl, hday],
    by rw [show Option.map HRow.hour (some r2) = some r2.hour from rfl, hhour]⟩
  rw [show Option.map (fun r2 => cellAt r2 j) (some r2) = some (cellAt r2 j) from rfl]
  suffices hc : cellAt r2 j = some v by rw [hc]
  rw [hcell, lastValid_take_succ t i2 gap gap.hour j h2, if_pos rfl, hg, oget_none_left]
  have hsplit : t.take i2 = t.take (i1 + 1) ++ (t.take i2).drop (i1 + 1) := by
    have htt : (t.take i2).take (i1 + 1) = t.take (i1 + 1) := by
      rw [List.take_take]
      congr 1
      omega
    conv_lhs => rw [← List.take_append_drop (i1 + 1) (t.take i2)]
    rw [htt]
  rw [hsplit, lastValid_append]
  have hprevmem : prev ∈ t.take (i1 + 1) := by
    refine List.mem_iff_getElem?.mpr ⟨i1, ?_⟩
    rw [List.getElem?_take_of_lt (Nat.lt_succ_self i1)]
    exact h1
  have hmid : lastValid ((t.take i2).drop (i1 + 1)) gap.hour j = none := by
    apply lastValid_of_no_hour
    intro b hb hbh
    have hpair2 : (t.take i2).Pairwise (fun a b => 24 * a.day + a.hour < 24 * b.day + b.hour) :=
      List.Pairwise.sublist (List.take_sublist i2 t) hsort
    have hcross1 : 24 * prev.day + prev.hour < 24 * b.day + b.hour := by
      have := (List.pairwise_append.mp (hsplit ▸ hpair2)).2.2
      exact this prev hprevmem b hb
    have hpair3 : (t.take (i2 + 1)).Pairwise
        (fun a b => 24 * a.day + a.hour < 24 * b.day + b.hour) :=
      List.Pairwise.sublist (List.take_sublist (i2 + 1) t) hsort
    have htk : t.take (i2 + 1) = t.take i2 ++ [gap] := by
      rw [List.take_succ, h2]
      rfl
    have hcross2 : 24 * b.day + b.hour < 24 * gap.day + gap.hour := by
      have hbt : b ∈ t.take i2 := by
        rw [hsplit]
        exact List.mem_append_right _ hb
      have := (List.pairwise_append.mp (htk ▸ hpair3)).2.2
      exact this b hbt gap (List.mem_singleton.mpr rfl)
    omega
  rw [hmid, oget_none_left, lastValid_take_succ t i1 prev gap.hour j h1, if_pos hh, hv, oget_some]

/-- Witness for C1 at a concrete table: the hour-9 gap on day 1 is filled
with the hour-9 value of day 0. -/
theorem c1_witness :
    (∀ r ∈ ([⟨0, 9, [some 5]⟩, ⟨1, 9, [none]⟩] : List HRow), r.cells.length = 1) ∧
    ([⟨0, 9, [some 5]⟩, ⟨1, 9, [none]⟩] : List HRow).Pairwise
      (fun a b => 24 * a.day + a.hour < 24 * b.day + b.hour) ∧
    Option.map (fun r2 => cellAt r2 0)
      ((handleNullValues [⟨0, 9, [some 5]⟩, ⟨1, 9, [none]⟩])[1]?) = some (some 5) :=
  ⟨by decide, by decide,
    (c1_gap_filled_from_previous_day [⟨0, 9, [some 5]⟩, ⟨1, 9, [none]⟩] 1 (by decide)
      (by decide) 0 1 0 ⟨0, 9, [some 5]⟩ ⟨1, 9, [none]⟩ 5 (by decide) (by decide) (by decide)
      (by decide) (by decide) (by decide) (by decide)).2.1⟩

/-!
Part 2: the data-frame pipeline.

We model a pandas data frame as a timestamp index plus a column header
plus rows of (column name, value) cells.  Column access is lookup by
name, `drop` filters a label out of every row (raising `KeyError` when
the label is not a column), and column assignment rewrites the cells
with the assigned name.  The sklearn parts are embedded as follows:
`OneHotEncoder` fitting collects the sorted distinct values of a column
and its transform with `handle_unknown="ignore"` maps an unseen value to
the all-zero indicator block instead of failing; `StandardScaler`
fitting stores the column mean and population variance, and its
transform subtracts the mean and divides by the scale (the square root
of the variance, taken as 1 when the variance is zero, as sklearn
does); a `ColumnTransformer` concatenates the one-hot blocks of the
categorical columns followed by the scaled numeric columns, selecting
the columns by name; a regression estimator is an abstract `fit` from a
design matrix and targets to parameters plus a `predict` from
parameters and a transformed row to a value, so every theorem below
holds for each of the estimators the notebook compares.
-/

def hourCol : String := "Hour"

def weekdayCol : String := "isWeekday"

def monthCol : String := "Month"

def globCol : String := "Globalstraling"

def solCol : String := "Solskinstid"

def luftCol : String := "Lufttemperatur"

def volumCol : String := "Volum"

/-- A data-frame row: its cells as (column name, value) pairs. -/
abbrev DRow (α : Type) := List (String × α)

/-- A data frame: timestamp index, column header, rows. -/
structure Frame (α : Type) where
  idx : List String
  header : List String
  rows : List (DRow α)
  deriving Repr, DecidableEq

/-- Well-formedness: every row has exactly the header's columns. -/
def Frame.WF {α : Type} (f : Frame α) : Prop :=
  ∀ r ∈ f.rows, r.map Prod.fst = f.header

instance {α : Type} (f : Frame α) : Decidable (Frame.WF f) := by
  unfold Frame.WF
  infer_instance

/-- Cell of a row in a named column (missing column reads as 0; the
embedding only reads columns that are present). -/
def getVal {α : Type} [Zero α] (r : DRow α) (c : String) : α :=
  (List.lookup c r).getD 0

/-- `df.drop([c], axis=1)`: remove the column, `KeyError` if absent. -/
def Frame.dropCol {α : Type} (f : Frame α) (c : String) : Except String (Frame α) :=
  if c ∈ f.header then
    Except.ok ⟨f.idx, f.header.filter (fun h => h != c),
      f.rows.map (fun r => r.filter (fun p => p.1 != c))⟩
  else
    Except.error ("KeyError: " ++ c)

/-- `df.drop(cs, axis=1)` for a list of labels. -/
def Frame.dropCols {α : Type} (f : Frame α) : List String → Except String (Frame α)
  | [] => Except.ok f
  | c :: cs => do
    let f' ← f.dropCol c
    f'.dropCols cs

/-- `df.c`: the values of a named column, top to bottom. -/
def Frame.col {α : Type} [Zero α] (f : Frame α) (c : String) : List α :=
  f.rows.map (fun r => getVal r c)

/-- `df.c = vs`: overwrite a column with a vector of values. -/
def Frame.setCol {α : Type} (f : Frame α) (c : String) (vs : List α) : Frame α :=
  ⟨f.idx, f.header,
    (f.rows.zip vs).map (fun rv => rv.1.map (fun p => if p.1 = c then (p.1, rv.2) else p))⟩

/-- `df.c = df.c.map(g)`: apply a function to a column in place. -/
def Frame.mapCol {α : Type} (f : Frame α) (c : String) (g : α → α) : Frame α :=
  ⟨f.idx, f.header,
    f.rows.map (fun r => r.map (fun p => if p.1 = c then (p.1, g p.2) else p))⟩

/-- View a rational frame as a real frame (the prediction step writes
real-valued predictions into the loaded frame). -/
def castFrame (f : Frame ℚ) : Frame ℝ :=
  ⟨f.idx, f.header, f.rows.map (fun r => r.map (fun p => (p.1, (p.2 : ℝ))))⟩

/-- `splitSet` (model.ipynb): `X = set.drop(['Volum'], axis=1)`,
`y = set.Volum`. -/
def splitSet (s : Frame ℚ) : Except String (Frame ℚ × List ℚ) := do
  let X ← s.dropCol volumCol
  Except.ok (X, s.col volumCol)

/-- An unfitted `ColumnTransformer`: the categorical column list (one-hot
encoded, block first) and the numeric column list (standard scaled,
block second). -/
structure Preprocessor where
  cats : List String
  nums : List String
  deriving Repr, DecidableEq

/-- `preprocess` (model.ipynb): the full feature lists.  As in the
source, the argument frame is not consulted. -/
def preprocess (Xtrain : Frame ℚ) : Preprocessor :=
  ⟨[hourCol, weekdayCol, monthCol], [globCol, solCol, luftCol]⟩

/-- `check_feature_process` (model.ipynb): the same lists with one
feature removed; `list.remove` inside `try/except pass` removes the
first occurrence when present and is silently a no-op otherwise, which
is exactly `List.erase`.  Note the numeric list is written in a
different order in this cell than in `preprocess`. -/
def check_feature_process (Xtrain : Frame ℚ) (featureToDrop : String) : Preprocessor :=
  ⟨([hourCol, weekdayCol, monthCol].erase featureToDrop),
   ([luftCol, globCol, solCol].erase featureToDrop)⟩

/-- `preprocess_selected_features` (model.ipynb): the reduced lists after
dropping 'Globalstraling' and 'Solskinstid'. -/
def preprocess_selected_features (Xtrain : Frame ℚ) : Preprocessor :=
  ⟨[hourCol, weekdayCol, monthCol], [luftCol]⟩

/-- `OneHotEncoder.fit` on one column: the sorted distinct values. -/
def oneHotCats (xs : List ℚ) : List ℚ :=
  List.insertionSort (fun a b => a ≤ b) xs.dedup

/-- The indicator block of value `v` over the fitted categories. -/
def oneHot (cats : List ℚ) (v : ℚ) : List ℚ :=
  cats.map (fun c => if c = v then 1 else 0)

/-- `OneHotEncoder.transform` on one value: with
`handle_unknown="ignore"` (as the notebook constructs it) an unseen
value encodes as the all-zero block; without it, it fails. -/
def oneHotEncode (ignoreUnknown : Bool) (cats : List ℚ) (v : ℚ) : Option (List ℚ) :=
  if v ∈ cats ∨ ignoreUnknown = true then some (oneHot cats v) else none

/-- Sample mean of a column. -/
def mean (xs : List ℚ) : ℚ :=
  xs.sum / (xs.length : ℚ)

/-- Population variance of a column (`StandardScaler` uses `ddof = 0`). -/
def popVar (xs : List ℚ) : ℚ :=
  ((xs.map (fun x => (x - mean xs) ^ 2)).sum) / (xs.length : ℚ)

/-- A fitted `ColumnTransformer`: per categorical column its fitted
categories, per numeric column its fitted mean and variance. -/
structure FittedPre where
  catInfo : List (String × List ℚ)
  numInfo : List (String × ℚ × ℚ)
  deriving Repr, DecidableEq

/-- Fitting the `ColumnTransformer`: all parameters are functions of the
columns of the frame it is fitted on. -/
def fitPre (p : Preprocessor) (X : Frame ℚ) : FittedPre :=
  ⟨p.cats.map (fun c => (c, oneHotCats (X.col c))),
   p.nums.map (fun c => (c, mean (X.col c), popVar (X.col c)))⟩

/-- `StandardScaler` scale: the square root of the variance, 1 when the
variance is zero (sklearn's guard against division by zero). -/
noncomputable def scaleOf (v : ℚ) : ℝ :=
  if v = 0 then 1 else Real.sqrt (v : ℝ)

/-- The fitted transform on one row: one-hot blocks of the categorical
columns (selected by name) followed by the scaled numeric columns
(selected by name). -/
noncomputable def transformRow (fp : FittedPre) (r : DRow ℚ) : List ℝ :=
  ((fp.catInfo.map (fun ci => (oneHotEncode true ci.2 (getVal r ci.1)).getD [])).flatten).map
      (fun q => (q : ℝ)) ++
    fp.numInfo.map (fun ni => ((getVal r ni.1 - ni.2.1 : ℚ) : ℝ) / scaleOf ni.2.2)

/-- An abstract regression estimator: `fit` maps a design matrix and a
target vector to parameters, `predict` maps parameters and a transformed
row to a prediction.  Every pipeline theorem below is proved for an
arbitrary estimator. -/
structure RModel (P : Type) where
  fit : List (List ℝ) → List ℚ → P
  predict : P → List ℝ → ℝ

/-- `DummyRegressor(strategy="mean")`: fitting stores the target mean,
prediction ignores the features and returns it. -/
noncomputable def dummyModel : RModel ℚ :=
  ⟨fun _ y => mean y, fun p _ => (p : ℝ)⟩

/-- A fitted `make_pipeline(preprocessor, model)`. -/
structure FittedPipe (P : Type) where
  pre : FittedPre
  params : P

/-- `pipe.fit(X, y)`: fit the preprocessor on `X`, then fit the model on
the transformed rows of `X` and the targets `y`. -/
noncomputable def pipeFit {P : Type} (p : Preprocessor) (m : RModel P) (X : Frame ℚ)
    (y : List ℚ) : FittedPipe P :=
  let fp := fitPre p X
  ⟨fp, m.fit (X.rows.map (fun r => transformRow fp r)) y⟩

/-- `pipe.predict(X)`: transform each row with the fitted preprocessor
and apply the fitted model. -/
noncomputable def pipePredict {P : Type} (m : RModel P) (fp : FittedPipe P) (X : Frame ℚ) :
    List ℝ :=
  X.rows.map (fun r => m.predict fp.params (transformRow fp.pre r))

/-- `mean_squared_error(y_true, y_pred)`. -/
noncomputable def mseR (pred target : List ℝ) : ℝ :=
  (List.zipWith (fun a b => (a - b) ^ 2) target pred).sum / (target.length : ℝ)

/-- `np.sqrt(MSE)`: the reported root-mean-squared error. -/
noncomputable def rmseR (pred target : List ℝ) : ℝ :=
  Real.sqrt (mseR pred target)

open Classical in
/-- Rounding to the nearest integer as `round`/`Series.round` do (ties
to the even integer). -/
noncomputable def roundHalfEvenZ (x : ℝ) : ℤ :=
  if x - Int.floor x < 1 / 2 then Int.floor x
  else if 1 / 2 < x - Int.floor x then Int.floor x + 1
  else if Even (Int.floor x) then Int.floor x else Int.floor x + 1

/-- `Series.round()` keeps the float dtype. -/
noncomputable def roundHalfEven (x : ℝ) : ℝ :=
  (roundHalfEvenZ x : ℝ)

/-- `compare_models` (model.ipynb): build the pipeline with the full
preprocessor, fit it on the training data, predict on the validation
features, compute RMSE, report the rounded value.  Returns the fitted
pipeline, the RMSE and the reported rounding. -/
noncomputable def compare_models {P : Type} (m : RModel P) (Xtrain : Frame ℚ) (ytrain : List ℚ)
    (Xval : Frame ℚ) (yval : List ℚ) : FittedPipe P × ℝ × ℤ :=
  let pipe := pipeFit (preprocess Xtrain) m Xtrain ytrain
  let ypred := pipePredict m pipe Xval
  let r := rmseR ypred (yval.map (fun q => (q : ℝ)))
  (pipe, r, roundHalfEvenZ r)

/-- One iteration of the feature-ablation loop (model.ipynb): drop the
feature from the train and validation frames (`df.drop` raises
`KeyError` when it is not a column), rebuild the preprocessor with
`check_feature_process`, fit the pipeline on the dropped training data,
predict on the dropped validation data, compute and report RMSE. -/
noncomputable def ablation_run {P : Type} (m : RModel P) (Xtrain : Frame ℚ) (ytrain : List ℚ)
    (Xval : Frame ℚ) (yval : List ℚ) (nFeature : String) : Except String (ℝ × ℤ) := do
  let XtrainCF ← Xtrain.dropCol nFeature
  let XvalCF ← Xval.dropCol nFeature
  let pre := check_feature_process XtrainCF nFeature
  let pipe := pipeFit pre m XtrainCF ytrain
  let r := rmseR (pipePredict m pipe XvalCF) (yval.map (fun q => (q : ℝ)))
  Except.ok (r, roundHalfEvenZ r)

/-- The final stage (model.ipynb): drop the two discarded features from
the training set, fit `best_model` on it, evaluate once on the test set
restricted to the same features, predict `Volum` for the future
features `X_toPredict` (passed as they stand), write the predictions
into the future frame and round them.  Returns the fitted pipeline, the
test RMSE, and the written output frame. -/
noncomputable def best_model_run {P : Type} (m : RModel P) (Xtrain : Frame ℚ) (ytrain : List ℚ)
    (Xtest : Frame ℚ) (ytest : List ℚ) (XtoPredict : Frame ℚ) (toPredict : Frame ℚ) :
    Except String (FittedPipe P × ℝ × Frame ℝ) := do
  let XtrainSel ← Xtrain.dropCols [globCol, solCol]
  let best := pipeFit (preprocess_selected_features XtrainSel) m XtrainSel ytrain
  let XtestSel ← Xtest.dropCols [globCol, solCol]
  let testRMSE := rmseR (pipePredict m best XtestSel) (ytest.map (fun q => (q : ℝ)))
  let volumPrediction := pipePredict m best XtoPredict
  let out := ((castFrame toPredict).setCol volumCol volumPrediction).mapCol volumCol roundHalfEven
  Except.ok (best, testRMSE, out)

theorem lookup_filter_ne {α : Type} (r : DRow α) (c f : String) (hne : c ≠ f) :
    List.lookup c (r.filter (fun p => p.1 != f)) = List.lookup c r := by
  induction r with
  | nil => rfl
  | cons p r ih =>
    obtain ⟨k, v⟩ := p
    by_cases hkf : k = f
    · have h1 : (((k, v) : String × α).1 != f) = false := by simp [hkf]
      have h2 : (c == k) = false := by
        subst hkf
        simp [hne]
      rw [List.filter_cons, h1]
      simp only [Bool.false_eq_true, if_false, ih]
      rw [List.lookup, h2]
    · have h1 : (((k, v) : String × α).1 != f) = true := by simp [hkf]
      rw [List.filter_cons, h1]
      simp only [if_true]
      rw [List.lookup, List.lookup]
      cases hck : (c == k) with
      | true => rfl
      | false => exact ih

theorem getVal_filter_ne {α : Type} [Zero α] (r : DRow α) (c f : String) (hne : c ≠ f) :
    getVal (r.filter (fun p => p.1 != f)) c = getVal r c := by
  unfold getVal
  rw [lookup_filter_ne r c f hne]

theorem dropCol_ok {α : Type} (f : Frame α) (c : String) (f' : Frame α)
    (hd : f.dropCol c = Except.ok f') :
    c ∈ f.header ∧
      f' = ⟨f.idx, f.header.filter (fun h => h != c),
        f.rows.map (fun r => r.filter (fun p => p.1 != c))⟩ := by
  by_cases hc : c ∈ f.header
  · refine ⟨hc, ?_⟩
    unfold Frame.dropCol at hd
    rw [if_pos hc] at hd
    exact (Except.ok.inj hd).symm
  · unfold Frame.dropCol at hd
    rw [if_neg hc] at hd
    exact absurd hd (by simp)

theorem dropCol_error {α : Type} (f : Frame α) (c : String) (hc : c ∉ f.header) :
    f.dropCol c = Except.error ("KeyError: " ++ c) := by
  unfold Frame.dropCol
  rw [if_neg hc]

theorem col_dropCol (f f' : Frame ℚ) (cdrop c : String)
    (hd : f.dropCol cdrop = Except.ok f') (hne : c ≠ cdrop) :
    f'.col c = f.col c := by
  obtain ⟨-, hf'⟩ := dropCol_ok f cdrop f' hd
  subst hf'
  unfold Frame.col
  rw [List.map_map]
  exact List.map_congr_left (fun r _ => getVal_filter_ne r c cdrop hne)

theorem fitPre_dropCol (p : Preprocessor) (f f' : Frame ℚ) (cdrop : String)
    (hd : f.dropCol cdrop = Except.ok f')
    (hcats : cdrop ∉ p.cats) (hnums : cdrop ∉ p.nums) :
    fitPre p f' = fitPre p f := by
  unfold fitPre
  congr 1
  · exact List.map_congr_left (fun c hc => by
      rw [col_dropCol f f' cdrop c hd (fun he => hcats (he ▸ hc))])
  · exact List.map_congr_left (fun c hc => by
      rw [col_dropCol f f' cdrop c hd (fun he => hnums (he ▸ hc))])

theorem transformRow_filter (fp : FittedPre) (r : DRow ℚ) (cdrop : String)
    (hcats : ∀ ci ∈ fp.catInfo, ci.1 ≠ cdrop) (hnums : ∀ ni ∈ fp.numInfo, ni.1 ≠ cdrop) :
    transformRow fp (r.filter (fun p => p.1 != cdrop)) = transformRow fp r := by
  unfold transformRow
  have hcat : fp.catInfo.map
        (fun ci => (oneHotEncode true ci.2 (getVal (r.filter (fun p => p.1 != cdrop)) ci.1)).getD []) =
      fp.catInfo.map (fun ci => (oneHotEncode true ci.2 (getVal r ci.1)).getD []) :=
    List.map_congr_left (fun ci hci => by
      rw [getVal_filter_ne r ci.1 cdrop (hcats ci hci)])
  have hnum : fp.numInfo.map
        (fun ni => ((getVal (r.filter (fun p => p.1 != cdrop)) ni.1 - ni.2.1 : ℚ) : ℝ) / scaleOf ni.2.2) =
      fp.numInfo.map (fun ni => ((getVal r ni.1 - ni.2.1 : ℚ) : ℝ) / scaleOf ni.2.2) :=
    List.map_congr_left (fun ni hni => by
      rw [getVal_filter_ne r ni.1 cdrop (hnums ni hni)])
  rw [hcat, hnum]

theorem pipePredict_dropCol {P : Type} (m : RModel P) (fp : FittedPipe P) (X X' : Frame ℚ)
    (cdrop : String) (hd : X.dropCol cdrop = Except.ok X')
    (hcats : ∀ ci ∈ fp.pre.catInfo, ci.1 ≠ cdrop)
    (hnums : ∀ ni ∈ fp.pre.numInfo, ni.1 ≠ cdrop) :
    pipePredict m fp X' = pipePredict m fp X := by
  obtain ⟨-, hf'⟩ := dropCol_ok X cdrop X' hd
  subst hf'
  unfold pipePredict
  rw [List.map_map]
  exact List.map_congr_left (fun r _ => by
    rw [Function.comp_apply, transformRow_filter fp.pre r cdrop hcats hnums])

/-- Insert an element at a position (at the end when the position is past
the end). -/
def insertAt {α : Type} : Nat → α → List α → List α
  | 0, a, l => a :: l
  | _ + 1, a, [] => [a]
  | n + 1, a, b :: l => b :: insertAt n a l

/-- Putting a target vector back as a named column at a given position:
the inverse of `splitSet` used to state that splitting loses nothing. -/
def recombine (X : Frame ℚ) (k : Nat) (y : List ℚ) : Frame ℚ :=
  ⟨X.idx, insertAt k volumCol X.header,
    (X.rows.zip y).map (fun ry => insertAt k (volumCol, ry.2) ry.1)⟩

theorem insertAt_filter_self (l : List String) (c : String) (hcount : l.count c = 1) :
    insertAt (l.indexOf c) c (l.filter (fun h => h != c)) = l := by
  induction l with
  | nil => simp at hcount
  | cons a l ih =>
    by_cases hac : a = c
    · subst hac
      have hcount0 : l.count a = 0 := by
        simp [List.count_cons] at hcount
        omega
      have hnm : a ∉ l := List.count_eq_zero.mp hcount0
      have hfl : l.filter (fun h => h != a) = l := by
        rw [List.filter_eq_self]
        intro b hb
        have hne : b ≠ a := fun he => hnm (by rw [← he]; exact hb)
        simpa using hne
      have hidx : (a :: l).indexOf a = 0 := List.indexOf_cons_self a l
      have hfa : (a :: l).filter (fun h => h != a) = l := by
        rw [List.filter_cons]
        simp [hfl]
      rw [hidx, hfa]
      rfl
    · have hbeq : (a == c) = false := beq_eq_false_iff_ne.mpr hac
      have hcount2 : l.count c = 1 := by
        rw [List.count_cons, hbeq] at hcount
        simpa using hcount
      have hidx : (a :: l).indexOf c = l.indexOf c + 1 := by
        rw [List.indexOf_cons, hbeq]
        rfl
      have hfa : (a :: l).filter (fun h => h != c) = a :: l.filter (fun h => h != c) := by
        rw [List.filter_cons]
        simp [hac]
      rw [hidx, hfa]
      show a :: insertAt (l.indexOf c) c (l.filter (fun h => h != c)) = a :: l
      rw [ih hcount2]

theorem row_reinsert (r : DRow ℚ) (c : String)
    (hcount : (r.map Prod.fst).count c = 1) :
    insertAt ((r.map Prod.fst).indexOf c) (c, getVal r c)
      (r.filter (fun p => p.1 != c)) = r := by
  induction r with
  | nil => simp at hcount
  | cons p r ih =>
    obtain ⟨k, v⟩ := p
    by_cases hkc : k = c
    · subst hkc
      have hcount0 : (r.map Prod.fst).count k = 0 := by
        simp [List.count_cons] at hcount
        omega
      have hnm : k ∉ r.map Prod.fst := List.count_eq_zero.mp hcount0
      have hfl : r.filter (fun p => p.1 != k) = r := by
        rw [List.filter_eq_self]
        intro b hb
        have hne : b.1 ≠ k := fun he => hnm (by rw [← he]; exact List.mem_map_of_mem Prod.fst hb)
        simpa using hne
      have hidx : (((k, v) :: r).map Prod.fst).indexOf k = 0 := by
        rw [List.map_cons]
        exact List.indexOf_cons_self k (r.map Prod.fst)
      have hget : getVal ((k, v) :: r) k = v := by
        unfold getVal
        rw [List.lookup]
        simp
      have hfa : ((k, v) :: r).filter (fun p => p.1 != k) = r := by
        rw [List.filter_cons]
        simp [hfl]
      rw [hidx, hget, hfa]
      rfl
    · have hbeq : (k == c) = false := beq_eq_false_iff_ne.mpr hkc
      have hbeq2 : (c == k) = false := beq_eq_false_iff_ne.mpr (fun he => hkc he.symm)
      have hcount2 : (r.map Prod.fst).count c = 1 := by
        rw [List.map_cons, List.count_cons, hbeq] at hcount
        simpa using hcount
      have hidx : (((k, v) :: r).map Prod.fst).indexOf c = (r.map Prod.fst).indexOf c + 1 := by
        rw [List.map_cons, List.indexOf_cons, hbeq]
        rfl
      have hget : getVal ((k, v) :: r) c = getVal r c := by
        unfold getVal
        rw [List.lookup, hbeq2]
      have hfa : ((k, v) :: r).filter (fun p => p.1 != c) =
          (k, v) :: r.filter (fun p => p.1 != c) := by
        rw [List.filter_cons]
        simp [hkc]
      rw [hidx, hget, hfa]
      show (k, v) :: insertAt ((r.map Prod.fst).indexOf c) (c, getVal r c)
        (r.filter (fun p => p.1 != c)) = (k, v) :: r
      rw [ih hcount2]

/-- C10: for a dataset with a (unique) `Volum` column, `splitSet` returns
the feature matrix `X` obtained by removing exactly the `Volum` column
(all other columns and all rows kept in order, the index untouched) and
the target vector `y = set.Volum`; the input frame is not modified
(`drop` returns a copy and both reads are pure), and re-inserting `y` as
a `Volum` column at its original position reconstructs the original
dataset. -/
theorem c10_splitSet_reconstructs (s : Frame ℚ) (hwf : s.WF)
    (hcount : s.header.count volumCol = 1) :
    splitSet s = Except.ok
      (⟨s.idx, s.header.filter (fun h => h != volumCol),
        s.rows.map (fun r => r.filter (fun p => p.1 != volumCol))⟩, s.col volumCol) ∧
    recombine
      ⟨s.idx, s.header.filter (fun h => h != volumCol),
        s.rows.map (fun r => r.filter (fun p => p.1 != volumCol))⟩
      (s.header.indexOf volumCol) (s.col volumCol) = s := by
  have hmem : volumCol ∈ s.header := by
    have hpos : 0 < s.header.count volumCol := by omega
    exact List.count_pos_iff.mp hpos
  constructor
  · unfold splitSet Frame.dropCol
    rw [if_pos hmem]
    rfl
  · unfold recombine
    have hhdr : insertAt (s.header.indexOf volumCol) volumCol
        (s.header.filter (fun h => h != volumCol)) = s.header :=
      insertAt_filter_self s.header volumCol hcount
    have hrows : ((s.rows.map (fun r => r.filter (fun p => p.1 != volumCol))).zip
          (s.col volumCol)).map
            (fun ry => insertAt (s.header.indexOf volumCol) (volumCol, ry.2) ry.1) =
        s.rows := by
      unfold Frame.col
      rw [List.zip_map']
      rw [List.map_map]
      have hpt : ∀ r ∈ s.rows,
          insertAt (s.header.indexOf volumCol) (volumCol, getVal r volumCol)
            (r.filter (fun p => p.1 != volumCol)) = r := by
        intro r hr
        have hkeys : r.map Prod.fst = s.header := hwf r hr
        have := row_reinsert r volumCol (by rw [hkeys]; exact hcount)
        rwa [hkeys] at this
      calc (s.rows.map (fun r =>
              insertAt (s.header.indexOf volumCol) (volumCol, getVal r volumCol)
                (r.filter (fun p => p.1 != volumCol)))) =
          s.rows.map id := List.map_congr_left (fun r hr => hpt r hr)
        _ = s.rows := List.map_id s.rows
    show (⟨s.idx, _, _⟩ : Frame ℚ) = s
    rw [hhdr, hrows]

/-- A concrete two-column dataset for the `splitSet` witness. -/
def sampleSet : Frame ℚ :=
  ⟨["2021-01-01 02:00:00"], [hourCol, volumCol], [[(hourCol, 2), (volumCol, 7)]]⟩

/-- Witness for C10 at `sampleSet`: recombining the split parts gives the
set back. -/
theorem c10_witness :
    (Frame.WF sampleSet ∧ sampleSet.header.count volumCol = 1) ∧
    recombine
      ⟨sampleSet.idx, sampleSet.header.filter (fun h => h != volumCol),
        sampleSet.rows.map (fun r => r.filter (fun p => p.1 != volumCol))⟩
      (sampleSet.header.indexOf volumCol) (sampleSet.col volumCol) = sampleSet :=
  ⟨⟨by decide, by decide⟩,
    (c10_splitSet_reconstructs sampleSet (by decide) (by decide)).2⟩

theorem mem_oneHotCats (xs : List ℚ) (v : ℚ) : v ∈ oneHotCats xs ↔ v ∈ xs := by
  unfold oneHotCats
  rw [(List.perm_insertionSort (fun a b => a ≤ b) xs.dedup).mem_iff, List.mem_dedup]

/-- C5: the one-hot step of the fitted preprocessor (constructed with
`handle_unknown="ignore"`, as `preprocess` does) does not fail on a
categorical value never seen during fit, and encodes it as the all-zero
block of that feature. -/
theorem c5_unseen_category_encodes_all_zeros (p : Preprocessor) (X : Frame ℚ)
    (c : String) (cats : List ℚ) (v : ℚ)
    (hmem : (c, cats) ∈ (fitPre p X).catInfo) (hunseen : v ∉ X.col c) :
    oneHotEncode true cats v = some (List.replicate cats.length 0) := by
  obtain ⟨c', hc', heq⟩ := List.mem_map.mp hmem
  have h1 : c' = c := congrArg Prod.fst heq
  have h2 : oneHotCats (X.col c') = cats := congrArg Prod.snd heq
  subst h1
  have hv : v ∉ cats := by
    rw [← h2, mem_oneHotCats]
    exact hunseen
  unfold oneHotEncode
  rw [if_pos (Or.inr rfl)]
  unfold oneHot
  have hlen : (cats.map (fun c => if c = v then (1 : ℚ) else 0)).length = cats.length :=
    List.length_map cats _
  rw [← hlen]
  congr 1
  apply List.eq_replicate_of_mem
  intro b hb
  obtain ⟨cat, hcat, hfb⟩ := List.mem_map.mp hb
  have hne : ¬ (cat = v) := by
    intro he
    rw [he] at hcat
    exact hv hcat
  rw [← hfb, if_neg hne]

/-- A concrete training frame for the encoder witness: the hour column
has the two seen values 0 and 1. -/
def sampleEnc : Frame ℚ :=
  ⟨["e1", "e2"], [hourCol], [[(hourCol, 0)], [(hourCol, 1)]]⟩

/-- Witness for C5: the value 99 was never seen when fitting on
`sampleEnc`, and it encodes to the all-zero block without failing. -/
theorem c5_witness :
    ((hourCol, ([0, 1] : List ℚ)) ∈ (fitPre (preprocess sampleEnc) sampleEnc).catInfo ∧
      (99 : ℚ) ∉ sampleEnc.col hourCol) ∧
    oneHotEncode true [0, 1] 99 = some (List.replicate ([0, 1] : List ℚ).length 0) :=
  ⟨⟨by decide, by decide⟩,
    c5_unseen_category_encodes_all_zeros (preprocess sampleEnc) sampleEnc hourCol
      [0, 1] 99 (by decide) (by decide)⟩

theorem mseR_self (x : List ℝ) : mseR x x = 0 := by
  unfold mseR
  have hz : List.zipWith (fun a b => (a - b) ^ 2) x x = List.replicate x.length 0 := by
    induction x with
    | nil => rfl
    | cons a x ih =>
      show ((a - a) ^ 2) :: List.zipWith (fun a b => (a - b) ^ 2) x x =
        List.replicate (x.length + 1) 0
      rw [ih, sub_self]
      norm_num
      rfl
  rw [hz, List.sum_replicate]
  simp

theorem roundHalfEvenZ_zero : roundHalfEvenZ 0 = 0 := by
  unfold roundHalfEvenZ
  rw [Int.floor_zero]
  have hlt : (0 : ℝ) - ((0 : ℤ) : ℝ) < 1 / 2 := by norm_num
  rw [if_pos hlt]

/-- C7: `compare_models` fits the pipeline on the training data, predicts
on the validation features, computes RMSE as the square root of the mean
squared error between predicted and true targets, and reports the rounded
value; in particular, when the predictions equal the targets exactly the
computed RMSE is 0 (and so is the reported rounding). -/
theorem c7_rmse_evaluation (P : Type) (m : RModel P) (Xtrain : Frame ℚ) (ytrain : List ℚ)
    (Xval : Frame ℚ) (yval : List ℚ) :
    (compare_models m Xtrain ytrain Xval yval).1 = pipeFit (preprocess Xtrain) m Xtrain ytrain ∧
    (compare_models m Xtrain ytrain Xval yval).2.1 =
      Real.sqrt (mseR (pipePredict m (pipeFit (preprocess Xtrain) m Xtrain ytrain) Xval)
        (yval.map (fun q => (q : ℝ)))) ∧
    (compare_models m Xtrain ytrain Xval yval).2.2 =
      roundHalfEvenZ ((compare_models m Xtrain ytrain Xval yval).2.1) ∧
    (pipePredict m (pipeFit (preprocess Xtrain) m Xtrain ytrain) Xval =
        yval.map (fun q => (q : ℝ)) →
      (compare_models m Xtrain ytrain Xval yval).2.1 = 0 ∧
      (compare_models m Xtrain ytrain Xval yval).2.2 = 0) := by
  refine ⟨rfl, rfl, rfl, ?_⟩
  intro h
  have h1 : (compare_models m Xtrain ytrain Xval yval).2.1 = 0 := by
    show rmseR (pipePredict m (pipeFit (preprocess Xtrain) m Xtrain ytrain) Xval)
      (yval.map (fun q => (q : ℝ))) = 0
    unfold rmseR
    rw [h, mseR_self, Real.sqrt_zero]
  refine ⟨h1, ?_⟩
  have h2 : (compare_models m Xtrain ytrain Xval yval).2.2 =
      roundHalfEvenZ ((compare_models m Xtrain ytrain Xval yval).2.1) := rfl
  rw [h2, h1, roundHalfEvenZ_zero]

/-- A one-row validation frame for the evaluator witness. -/
def sampleVal : Frame ℚ :=
  ⟨["v1"], [hourCol], [[(hourCol, 0)]]⟩

/-- Witness for C7 with the mean-strategy dummy regressor: training
target mean 3, validation target 3, so the prediction is exact and the
computed and reported RMSE are 0. -/
theorem c7_witness :
    pipePredict dummyModel (pipeFit (preprocess sampleEnc) dummyModel sampleEnc [3]) sampleVal =
      ([3] : List ℚ).map (fun q => (q : ℝ)) ∧
    (compare_models dummyModel sampleEnc [3] sampleVal [3]).2.1 = 0 ∧
    (compare_models dummyModel sampleEnc [3] sampleVal [3]).2.2 = 0 := by
  have hpred : pipePredict dummyModel
      (pipeFit (preprocess sampleEnc) dummyModel sampleEnc [3]) sampleVal =
      ([3] : List ℚ).map (fun q => (q : ℝ)) := by
    show [((mean [3] : ℚ) : ℝ)] = [((3 : ℚ) : ℝ)]
    norm_num [mean]
  exact ⟨hpred,
    (c7_rmse_evaluation ℚ dummyModel sampleEnc [3] sampleVal [3]).2.2.2 hpred⟩

theorem except_bind_ok {α β : Type} (a : α) (f : α → Except String β) :
    (Except.ok a >>= f) = f a := rfl

theorem dropCols_cons {α : Type} (f : Frame α) (c : String) (cs : List String) :
    f.dropCols (c :: cs) = (f.dropCol c >>= fun f2 => f2.dropCols cs) := rfl

theorem fitPre_cat_names (p : Preprocessor) (X : Frame ℚ) :
    ∀ ci ∈ (fitPre p X).catInfo, ci.1 ∈ p.cats := by
  intro ci hci
  obtain ⟨c, hc, heq⟩ := List.mem_map.mp hci
  rw [← heq]
  exact hc

theorem fitPre_num_names (p : Preprocessor) (X : Frame ℚ) :
    ∀ ni ∈ (fitPre p X).numInfo, ni.1 ∈ p.nums := by
  intro ni hni
  obtain ⟨c, hc, heq⟩ := List.mem_map.mp hni
  rw [← heq]
  exact hc

theorem pipeFit_dropCol {P : Type} (m : RModel P) (p : Preprocessor) (X X' : Frame ℚ)
    (y : List ℚ) (f : String) (hd : X.dropCol f = Except.ok X')
    (hc : f ∉ p.cats) (hn : f ∉ p.nums) :
    pipeFit p m X' y = pipeFit p m X y := by
  have hfp : fitPre p X' = fitPre p X := fitPre_dropCol p X X' f hd hc hn
  have hrows : X'.rows.map (fun r => transformRow (fitPre p X) r) =
      X.rows.map (fun r => transformRow (fitPre p X) r) := by
    obtain ⟨-, hX'⟩ := dropCol_ok X f X' hd
    rw [hX']
    show ((X.rows.map (fun r => r.filter (fun pr => pr.1 != f))).map
      (fun r => transformRow (fitPre p X) r)) = _
    rw [List.map_map]
    refine List.map_congr_left (fun r _ => ?_)
    refine transformRow_filter (fitPre p X) r f ?_ ?_
    · intro ci hci he
      exact hc (by rw [← he]; exact fitPre_cat_names p X ci hci)
    · intro ni hni he
      exact hn (by rw [← he]; exact fitPre_num_names p X ni hni)
  unfold pipeFit
  rw [hfp]
  show (⟨fitPre p X, m.fit (X'.rows.map (fun r => transformRow (fitPre p X) r)) y⟩ :
      FittedPipe P) =
    ⟨fitPre p X, m.fit (X.rows.map (fun r => transformRow (fitPre p X) r)) y⟩
  rw [hrows]

theorem pipePredict_dropCols {P : Type} (m : RModel P) (fp : FittedPipe P) (cs : List String) :
    ∀ X X' : Frame ℚ, X.dropCols cs = Except.ok X' →
      (∀ c ∈ cs, (∀ ci ∈ fp.pre.catInfo, ci.1 ≠ c) ∧ (∀ ni ∈ fp.pre.numInfo, ni.1 ≠ c)) →
      pipePredict m fp X' = pipePredict m fp X := by
  induction cs with
  | nil =>
    intro X X' h _
    have hXX : X = X' := Except.ok.inj h
    rw [hXX]
  | cons c cs ih =>
    intro X X' h hc
    cases hd : X.dropCol c with
    | error e =>
      rw [dropCols_cons, hd] at h
      exact absurd h (by simp [Bind.bind, Except.bind])
    | ok X1 =>
      rw [dropCols_cons, hd, except_bind_ok] at h
      have e1 : pipePredict m fp X' = pipePredict m fp X1 :=
        ih X1 X' h (fun c2 hc2 => hc c2 (List.mem_cons_of_mem c hc2))
      have e2 : pipePredict m fp X1 = pipePredict m fp X :=
        pipePredict_dropCol m fp X X1 c hd (hc c (List.mem_cons_self c cs)).1
          (hc c (List.mem_cons_self c cs)).2
      rw [e1, e2]

/-- C6: every fit happens on training data only.  The pipeline fitted by
`compare_models` is the same no matter which validation data the run is
given, and equals the fit on the training frame and targets alone; the
fitted one-hot categories and the standardization mean and variance are
functions of the training columns only; predictions on any frame apply
that identical fitted transform unchanged; and the final-stage fitted
pipeline is likewise a function of the training data only — two
`best_model_run` invocations with different test and future data carry
the same fitted pipeline. -/
theorem c6_fit_on_training_only (P : Type) (m : RModel P) (Xtrain : Frame ℚ) (ytrain : List ℚ)
    (Xval : Frame ℚ) (yval : List ℚ) (Xval2 : Frame ℚ) (yval2 : List ℚ)
    (Xtest : Frame ℚ) (ytest : List ℚ) (Xp tp : Frame ℚ)
    (Xtest2 : Frame ℚ) (ytest2 : List ℚ) (Xp2 tp2 : Frame ℚ)
    (XtrSel XteSel XteSel2 : Frame ℚ)
    (hXtr : Xtrain.dropCols [globCol, solCol] = Except.ok XtrSel)
    (hXte : Xtest.dropCols [globCol, solCol] = Except.ok XteSel)
    (hXte2 : Xtest2.dropCols [globCol, solCol] = Except.ok XteSel2) :
    (compare_models m Xtrain ytrain Xval yval).1 =
      (compare_models m Xtrain ytrain Xval2 yval2).1 ∧
    (compare_models m Xtrain ytrain Xval yval).1 =
      pipeFit (preprocess Xtrain) m Xtrain ytrain ∧
    (fitPre (preprocess Xtrain) Xtrain).catInfo =
      [hourCol, weekdayCol, monthCol].map (fun c => (c, oneHotCats (Xtrain.col c))) ∧
    (fitPre (preprocess Xtrain) Xtrain).numInfo =
      [globCol, solCol, luftCol].map
        (fun c => (c, mean (Xtrain.col c), popVar (Xtrain.col c))) ∧
    (∀ X : Frame ℚ, pipePredict m (compare_models m Xtrain ytrain Xval yval).1 X =
      X.rows.map (fun r => m.predict (pipeFit (preprocess Xtrain) m Xtrain ytrain).params
        (transformRow (fitPre (preprocess Xtrain) Xtrain) r))) ∧
    (best_model_run m Xtrain ytrain Xtest ytest Xp tp).map (fun z => z.1) =
      Except.ok (pipeFit (preprocess_selected_features XtrSel) m XtrSel ytrain) ∧
    (best_model_run m Xtrain ytrain Xtest2 ytest2 Xp2 tp2).map (fun z => z.1) =
      Except.ok (pipeFit (preprocess_selected_features XtrSel) m XtrSel ytrain) := by
  refine ⟨rfl, rfl, rfl, rfl, fun X => rfl, ?_, ?_⟩
  · unfold best_model_run
    rw [hXtr, except_bind_ok, hXte, except_bind_ok]
    rfl
  · unfold best_model_run
    rw [hXtr, except_bind_ok, hXte2, except_bind_ok]
    rfl

/-- A concrete one-row training frame with the full column schema. -/
def sampleFeat : Frame ℚ :=
  ⟨["t1"], [hourCol, weekdayCol, monthCol, globCol, solCol, luftCol],
    [[(hourCol, 0), (weekdayCol, 1), (monthCol, 1), (globCol, 2), (solCol, 3), (luftCol, 4)]]⟩

/-- `sampleFeat` with Globalstraling and Solskinstid dropped. -/
def sampleFeatSel : Frame ℚ :=
  ⟨["t1"], [hourCol, weekdayCol, monthCol, luftCol],
    [[(hourCol, 0), (weekdayCol, 1), (monthCol, 1), (luftCol, 4)]]⟩

/-- Witness for C6 with the dummy regressor and two different validation
and test sets. -/
theorem c6_witness :
    sampleFeat.dropCols [globCol, solCol] = Except.ok sampleFeatSel ∧
    (compare_models dummyModel sampleFeat [3] sampleVal [3]).1 =
      (compare_models dummyModel sampleFeat [3] sampleEnc [4, 5]).1 ∧
    (best_model_run dummyModel sampleFeat [3] sampleFeat [3] sampleVal sampleSet).map
        (fun z => z.1) =
      Except.ok (pipeFit (preprocess_selected_features sampleFeatSel) dummyModel
        sampleFeatSel [3]) := by
  have hd : sampleFeat.dropCols [globCol, solCol] = Except.ok sampleFeatSel := rfl
  refine ⟨hd, ?_, ?_⟩
  · exact (c6_fit_on_training_only ℚ dummyModel sampleFeat [3] sampleVal [3] sampleEnc [4, 5]
      sampleFeat [3] sampleVal sampleSet sampleFeat [3] sampleVal sampleSet
      sampleFeatSel sampleFeatSel sampleFeatSel hd hd hd).1
  · exact (c6_fit_on_training_only ℚ dummyModel sampleFeat [3] sampleVal [3] sampleEnc [4, 5]
      sampleFeat [3] sampleVal sampleSet sampleFeat [3] sampleVal sampleSet
      sampleFeatSel sampleFeatSel sampleFeatSel hd hd hd).2.2.2.2.2.1

/-- A feature name that is neither in the feature lists nor a column. -/
def absentFeat : String := "Weekend"

/-- C3 counterexample: for the feature name `"Weekend"`, which is absent
from both the categorical and the numeric feature lists (and hence also
not a column of the frames), the ablation run does NOT run without
error: the loop's `X_train.drop([n_feature], axis=1)` raises `KeyError`
before the silently-ignoring list removal is ever reached, so no RMSE is
reported at all.  This refutes the claim that any such feature name
yields an error-free run with unchanged RMSE. -/
theorem c3_counterexample :
    ablation_run dummyModel sampleFeat [3] sampleVal [3] absentFeat =
      Except.error ("KeyError: " ++ absentFeat) := by
  have h : sampleFeat.dropCol absentFeat = Except.error ("KeyError: " ++ absentFeat) :=
    dropCol_error sampleFeat absentFeat (by decide)
  unfold ablation_run
  rw [h]
  rfl

/-- C3 (amended): for a feature name absent from both feature lists, the
list removal inside `check_feature_process` is a silent no-op (the
preprocessor is the unchanged full-feature one); when the name is a
column of the train and validation frames — so the loop's `drop` calls
succeed — the run reports exactly the RMSE of the full-feature (no-drop)
pipeline; but when it is not a column, the run fails with `KeyError`
at the `drop` step instead of reporting an RMSE. -/
theorem c3_absent_feature_amended (P : Type) (m : RModel P) (Xtrain : Frame ℚ)
    (ytrain : List ℚ) (Xval : Frame ℚ) (yval : List ℚ) (f : String)
    (hcats : f ∉ [hourCol, weekdayCol, monthCol]) (hnums : f ∉ [luftCol, globCol, solCol])
    (XtrainCF XvalCF : Frame ℚ)
    (hdtr : Xtrain.dropCol f = Except.ok XtrainCF)
    (hdva : Xval.dropCol f = Except.ok XvalCF) :
    check_feature_process XtrainCF f =
      ⟨[hourCol, weekdayCol, monthCol], [luftCol, globCol, solCol]⟩ ∧
    ablation_run m Xtrain ytrain Xval yval f = Except.ok
      (rmseR (pipePredict m
          (pipeFit ⟨[hourCol, weekdayCol, monthCol], [luftCol, globCol, solCol]⟩ m
            Xtrain ytrain) Xval)
        (yval.map (fun q => (q : ℝ))),
       roundHalfEvenZ (rmseR (pipePredict m
          (pipeFit ⟨[hourCol, weekdayCol, monthCol], [luftCol, globCol, solCol]⟩ m
            Xtrain ytrain) Xval)
        (yval.map (fun q => (q : ℝ))))) := by
  have hcfp : ∀ X : Frame ℚ, check_feature_process X f =
      ⟨[hourCol, weekdayCol, monthCol], [luftCol, globCol, solCol]⟩ := by
    intro X
    unfold check_feature_process
    rw [List.erase_of_not_mem hcats, List.erase_of_not_mem hnums]
  refine ⟨hcfp XtrainCF, ?_⟩
  unfold ablation_run
  rw [hdtr, except_bind_ok, hdva, except_bind_ok, hcfp XtrainCF]
  have hfit : pipeFit ⟨[hourCol, weekdayCol, monthCol], [luftCol, globCol, solCol]⟩ m
      XtrainCF ytrain =
      pipeFit ⟨[hourCol, weekdayCol, monthCol], [luftCol, globCol, solCol]⟩ m
        Xtrain ytrain :=
    pipeFit_dropCol m _ Xtrain XtrainCF ytrain f hdtr hcats hnums
  have hpred : pipePredict m
      (pipeFit ⟨[hourCol, weekdayCol, monthCol], [luftCol, globCol, solCol]⟩ m XtrainCF ytrain)
      XvalCF =
      pipePredict m
        (pipeFit ⟨[hourCol, weekdayCol, monthCol], [luftCol, globCol, solCol]⟩ m Xtrain ytrain)
        Xval := by
    rw [hfit]
    refine pipePredict_dropCol m _ Xval XvalCF f hdva ?_ ?_
    · intro ci hci he
      exact hcats (by rw [← he]; exact fitPre_cat_names _ Xtrain ci hci)
    · intro ni hni he
      exact hnums (by rw [← he]; exact fitPre_num_names _ Xtrain ni hni)
  have hgoal : (Except.ok
      (rmseR (pipePredict m
          (pipeFit ⟨[hourCol, weekdayCol, monthCol], [luftCol, globCol, solCol]⟩ m
            XtrainCF ytrain) XvalCF)
        (yval.map (fun q => (q : ℝ))),
       roundHalfEvenZ (rmseR (pipePredict m
          (pipeFit ⟨[hourCol, weekdayCol, monthCol], [luftCol, globCol, solCol]⟩ m
            XtrainCF ytrain) XvalCF)
        (yval.map (fun q => (q : ℝ))))) : Except String (ℝ × ℤ)) = Except.ok
      (rmseR (pipePredict m
          (pipeFit ⟨[hourCol, weekdayCol, monthCol], [luftCol, globCol, solCol]⟩ m
            Xtrain ytrain) Xval)
        (yval.map (fun q => (q : ℝ))),
       roundHalfEvenZ (rmseR (pipePredict m
          (pipeFit ⟨[hourCol, weekdayCol, monthCol], [luftCol, globCol, solCol]⟩ m
            Xtrain ytrain) Xval)
        (yval.map (fun q => (q : ℝ))))) := by
    rw [hpred]
  exact hgoal

/-- A column name present in the data but in neither feature list. -/
def extraFeat : String := "Extra"

/-- A one-row frame with the full schema plus an extra column. -/
def sampleExtra : Frame ℚ :=
  ⟨["t1"], [hourCol, weekdayCol, monthCol, globCol, solCol, luftCol, extraFeat],
    [[(hourCol, 0), (weekdayCol, 1), (monthCol, 1), (globCol, 2), (solCol, 3),
      (luftCol, 4), (extraFeat, 9)]]⟩

/-- Witness for the amended C3: dropping the extra column (absent from
both feature lists but present in the data) leaves the preprocessor and
the reported RMSE exactly those of the full-feature run. -/
theorem c3_witness :
    (extraFeat ∉ [hourCol, weekdayCol, monthCol] ∧
      extraFeat ∉ [luftCol, globCol, solCol] ∧
      sampleExtra.dropCol extraFeat = Except.ok sampleFeat) ∧
    check_feature_process sampleFeat extraFeat =
      ⟨[hourCol, weekdayCol, monthCol], [luftCol, globCol, solCol]⟩ ∧
    ablation_run dummyModel sampleExtra [3] sampleExtra [3] extraFeat = Except.ok
      (rmseR (pipePredict dummyModel
          (pipeFit ⟨[hourCol, weekdayCol, monthCol], [luftCol, globCol, solCol]⟩ dummyModel
            sampleExtra [3]) sampleExtra)
        (([3] : List ℚ).map (fun q => (q : ℝ))),
       roundHalfEvenZ (rmseR (pipePredict dummyModel
          (pipeFit ⟨[hourCol, weekdayCol, monthCol], [luftCol, globCol, solCol]⟩ dummyModel
            sampleExtra [3]) sampleExtra)
        (([3] : List ℚ).map (fun q => (q : ℝ))))) := by
  have hd : sampleExtra.dropCol extraFeat = Except.ok sampleFeat := rfl
  exact ⟨⟨by decide, by decide, hd⟩,
    c3_absent_feature_amended ℚ dummyModel sampleExtra [3] sampleExtra [3] extraFeat
      (by decide) (by decide) sampleFeat sampleFeat hd hd⟩

/-- C2: the final pipeline is refit on the training data restricted to
the reduced feature set (without Globalstraling and Solskinstid),
evaluated once on the test data restricted to the same features, and the
predictions written out are exactly those of that pipeline on the future
dataset's reduced feature set — the source passes the unreduced
`X_toPredict`, but the fitted column transformer selects its fitted
columns by name, so the extra two columns contribute nothing — with the
outputs rounded to the nearest integer (ties to even) before being
written into the output frame. -/
theorem c2_final_refit_and_prediction (P : Type) (m : RModel P)
    (Xtrain : Frame ℚ) (ytrain : List ℚ) (Xtest : Frame ℚ) (ytest : List ℚ)
    (Xp tp : Frame ℚ) (XtrSel XteSel XpSel : Frame ℚ)
    (hXtr : Xtrain.dropCols [globCol, solCol] = Except.ok XtrSel)
    (hXte : Xtest.dropCols [globCol, solCol] = Except.ok XteSel)
    (hXp : Xp.dropCols [globCol, solCol] = Except.ok XpSel) :
    best_model_run m Xtrain ytrain Xtest ytest Xp tp = Except.ok
      (pipeFit (preprocess_selected_features XtrSel) m XtrSel ytrain,
       rmseR (pipePredict m (pipeFit (preprocess_selected_features XtrSel) m XtrSel ytrain)
           XteSel)
         (ytest.map (fun q => (q : ℝ))),
       ((castFrame tp).setCol volumCol
           (pipePredict m (pipeFit (preprocess_selected_features XtrSel) m XtrSel ytrain)
             XpSel)).mapCol
         volumCol roundHalfEven) := by
  have hnames : ∀ c ∈ [globCol, solCol],
      (∀ ci ∈ (pipeFit (preprocess_selected_features XtrSel) m XtrSel ytrain).pre.catInfo,
        ci.1 ≠ c) ∧
      (∀ ni ∈ (pipeFit (preprocess_selected_features XtrSel) m XtrSel ytrain).pre.numInfo,
        ni.1 ≠ c) := by
    intro c hc
    have hpre : (pipeFit (preprocess_selected_features XtrSel) m XtrSel ytrain).pre =
        fitPre (preprocess_selected_features XtrSel) XtrSel := rfl
    fin_cases hc
    · constructor
      · intro ci hci he
        rw [hpre] at hci
        have h1 : ci.1 ∈ [hourCol, weekdayCol, monthCol] :=
          fitPre_cat_names (preprocess_selected_features XtrSel) XtrSel ci hci
        rw [he] at h1
        exact absurd h1 (by decide)
      · intro ni hni he
        rw [hpre] at hni
        have h1 : ni.1 ∈ [luftCol] :=
          fitPre_num_names (preprocess_selected_features XtrSel) XtrSel ni hni
        rw [he] at h1
        exact absurd h1 (by decide)
    · constructor
      · intro ci hci he
        rw [hpre] at hci
        have h1 : ci.1 ∈ [hourCol, weekdayCol, monthCol] :=
          fitPre_cat_names (preprocess_selected_features XtrSel) XtrSel ci hci
        rw [he] at h1
        exact absurd h1 (by decide)
      · intro ni hni he
        rw [hpre] at hni
        have h1 : ni.1 ∈ [luftCol] :=
          fitPre_num_names (preprocess_selected_features XtrSel) XtrSel ni hni
        rw [he] at h1
        exact absurd h1 (by decide)
  have hpp : pipePredict m (pipeFit (preprocess_selected_features XtrSel) m XtrSel ytrain)
      XpSel =
      pipePredict m (pipeFit (preprocess_selected_features XtrSel) m XtrSel ytrain) Xp :=
    pipePredict_dropCols m (pipeFit (preprocess_selected_features XtrSel) m XtrSel ytrain)
      [globCol, solCol] Xp XpSel hXp hnames
  unfold best_model_run
  rw [hXtr, except_bind_ok, hXte, except_bind_ok]
  have hgoal : (Except.ok
      (pipeFit (preprocess_selected_features XtrSel) m XtrSel ytrain,
       rmseR (pipePredict m (pipeFit (preprocess_selected_features XtrSel) m XtrSel ytrain)
           XteSel)
         (ytest.map (fun q => (q : ℝ))),
       ((castFrame tp).setCol volumCol
           (pipePredict m (pipeFit (preprocess_selected_features XtrSel) m XtrSel ytrain)
             Xp)).mapCol
         volumCol roundHalfEven) : Except String (FittedPipe P × ℝ × Frame ℝ)) = Except.ok
      (pipeFit (preprocess_selected_features XtrSel) m XtrSel ytrain,
       rmseR (pipePredict m (pipeFit (preprocess_selected_features XtrSel) m XtrSel ytrain)
           XteSel)
         (ytest.map (fun q => (q : ℝ))),
       ((castFrame tp).setCol volumCol
           (pipePredict m (pipeFit (preprocess_selected_features XtrSel) m XtrSel ytrain)
             XpSel)).mapCol
         volumCol roundHalfEven) := by
    rw [hpp]
  exact hgoal

/-- Witness for C2 with the dummy regressor on concrete one-row frames. -/
theorem c2_witness :
    sampleFeat.dropCols [globCol, solCol] = Except.ok sampleFeatSel ∧
    best_model_run dummyModel sampleFeat [3] sampleFeat [3] sampleFeat sampleSet = Except.ok
      (pipeFit (preprocess_selected_features sampleFeatSel) dummyModel sampleFeatSel [3],
       rmseR (pipePredict dummyModel
           (pipeFit (preprocess_selected_features sampleFeatSel) dummyModel sampleFeatSel [3])
           sampleFeatSel)
         (([3] : List ℚ).map (fun q => (q : ℝ))),
       ((castFrame sampleSet).setCol volumCol
           (pipePredict dummyModel
             (pipeFit (preprocess_selected_features sampleFeatSel) dummyModel sampleFeatSel [3])
             sampleFeatSel)).mapCol
         volumCol roundHalfEven) := by
  have hd : sampleFeat.dropCols [globCol, solCol] = Except.ok sampleFeatSel := rfl
  exact ⟨hd, c2_final_refit_and_prediction ℚ dummyModel sampleFeat [3] sampleFeat [3]
    sampleFeat sampleSet sampleFeatSel sampleFeatSel sampleFeatSel hd hd hd⟩

theorem pipePredict_length {P : Type} (m : RModel P) (fp : FittedPipe P) (X : Frame ℚ) :
    (pipePredict m fp X).length = X.rows.length :=
  List.length_map X.rows _

theorem splitSet_ok_length (s X : Frame ℚ) (y : List ℚ)
    (h : splitSet s = Except.ok (X, y)) : X.rows.length = s.rows.length := by
  unfold splitSet at h
  cases hd : s.dropCol volumCol with
  | error e =>
    rw [hd] at h
    exact absurd h (by simp [Bind.bind, Except.bind])
  | ok X1 =>
    rw [hd, except_bind_ok] at h
    have hXy : (X1, s.col volumCol) = (X, y) := Except.ok.inj h
    have hX : X1 = X := congrArg Prod.fst hXy
    obtain ⟨-, hX1⟩ := dropCol_ok s volumCol X1 hd
    rw [← hX, hX1]
    exact List.length_map s.rows _

theorem written_rows (tp : Frame ℚ) (vs : List ℝ) :
    (((castFrame tp).setCol volumCol vs).mapCol volumCol roundHalfEven).rows =
      (tp.rows.zip vs).map (fun rv =>
        rv.1.map (fun p => if p.1 = volumCol then (p.1, roundHalfEven rv.2)
          else (p.1, (p.2 : ℝ)))) := by
  show (((tp.rows.map (fun r => r.map (fun p => (p.1, (p.2 : ℝ))))).zip vs).map
      (fun rv => rv.1.map (fun p => if p.1 = volumCol then (p.1, rv.2) else p))).map
      (fun r => r.map (fun p => if p.1 = volumCol then (p.1, roundHalfEven p.2) else p)) = _
  rw [List.zip_map_left, List.map_map, List.map_map]
  refine List.map_congr_left (fun rv _ => ?_)
  show ((rv.1.map (fun p => (p.1, (p.2 : ℝ)))).map
      (fun p => if p.1 = volumCol then (p.1, rv.2) else p)).map
      (fun p => if p.1 = volumCol then (p.1, roundHalfEven p.2) else p) = _
  rw [List.map_map, List.map_map]
  refine List.map_congr_left (fun p _ => ?_)
  by_cases hp : p.1 = volumCol
  · simp [hp]
  · simp [hp]

/-- C8: the written prediction output is the (imputed) future dataset
with only its `Volum` column overwritten by the rounded predictions:
the timestamp index, the header, the row count and every non-`Volum`
cell are identical to the future dataset, and each `Volum` cell holds
the rounded prediction for its row. -/
theorem c8_only_volum_overwritten (P : Type) (m : RModel P)
    (Xtrain : Frame ℚ) (ytrain : List ℚ) (Xtest : Frame ℚ) (ytest : List ℚ)
    (tp Xp : Frame ℚ) (yp : List ℚ)
    (hsplit : splitSet tp = Except.ok (Xp, yp))
    (XtrSel XteSel : Frame ℚ)
    (hXtr : Xtrain.dropCols [globCol, solCol] = Except.ok XtrSel)
    (hXte : Xtest.dropCols [globCol, solCol] = Except.ok XteSel) :
    (best_model_run m Xtrain ytrain Xtest ytest Xp tp).map (fun z => z.2.2.idx) =
      Except.ok tp.idx ∧
    (best_model_run m Xtrain ytrain Xtest ytest Xp tp).map (fun z => z.2.2.header) =
      Except.ok tp.header ∧
    (best_model_run m Xtrain ytrain Xtest ytest Xp tp).map (fun z => z.2.2.rows.length) =
      Except.ok tp.rows.length ∧
    (best_model_run m Xtrain ytrain Xtest ytest Xp tp).map (fun z => z.2.2.rows) =
      Except.ok ((tp.rows.zip (pipePredict m
          (pipeFit (preprocess_selected_features XtrSel) m XtrSel ytrain) Xp)).map
        (fun rv => rv.1.map (fun p => if p.1 = volumCol then (p.1, roundHalfEven rv.2)
          else (p.1, (p.2 : ℝ))))) := by
  have hlen : (pipePredict m (pipeFit (preprocess_selected_features XtrSel) m XtrSel ytrain)
      Xp).length = tp.rows.length := by
    rw [pipePredict_length]
    exact splitSet_ok_length tp Xp yp hsplit
  unfold best_model_run
  rw [hXtr, except_bind_ok, hXte, except_bind_ok]
  refine ⟨rfl, rfl, ?_, ?_⟩
  · show Except.ok ((((castFrame tp).setCol volumCol (pipePredict m
        (pipeFit (preprocess_selected_features XtrSel) m XtrSel ytrain) Xp)).mapCol
      volumCol roundHalfEven).rows.length) = Except.ok tp.rows.length
    rw [written_rows]
    rw [List.length_map, List.length_zip, hlen, Nat.min_self]
  · show Except.ok ((((castFrame tp).setCol volumCol (pipePredict m
        (pipeFit (preprocess_selected_features XtrSel) m XtrSel ytrain) Xp)).mapCol
      volumCol roundHalfEven).rows) = _
    rw [written_rows]

/-- The feature part of `sampleSet` after `splitSet`. -/
def sampleSetX : Frame ℚ :=
  ⟨["2021-01-01 02:00:00"], [hourCol], [[(hourCol, 2)]]⟩

/-- Witness for C8 with the dummy regressor: the written frame keeps the
index and header of the future set and its rows are the future rows with
only the `Volum` cell replaced by the rounded prediction. -/
theorem c8_witness :
    (splitSet sampleSet = Except.ok (sampleSetX, [7]) ∧
      sampleFeat.dropCols [globCol, solCol] = Except.ok sampleFeatSel) ∧
    (best_model_run dummyModel sampleFeat [3] sampleFeat [3] sampleSetX sampleSet).map
        (fun z => z.2.2.idx) = Except.ok sampleSet.idx ∧
    (best_model_run dummyModel sampleFeat [3] sampleFeat [3] sampleSetX sampleSet).map
        (fun z => z.2.2.rows) =
      Except.ok ((sampleSet.rows.zip (pipePredict dummyModel
          (pipeFit (preprocess_selected_features sampleFeatSel) dummyModel sampleFeatSel [3])
          sampleSetX)).map
        (fun rv => rv.1.map (fun p => if p.1 = volumCol then (p.1, roundHalfEven rv.2)
          else (p.1, (p.2 : ℝ))))) := by
  have hs : splitSet sampleSet = Except.ok (sampleSetX, [7]) := rfl
  have hd : sampleFeat.dropCols [globCol, solCol] = Except.ok sampleFeatSel := rfl
  have h := c8_only_volum_overwritten ℚ dummyModel sampleFeat [3] sampleFeat [3]
    sampleSet sampleSetX [7] hs sampleFeatSel sampleFeatSel hd hd
  exact ⟨⟨hs, hd⟩, h.1, h.2.2.2⟩
